import Mathlib

/-!
Verification of the vdb-benchmarks workload generator, telemetry parser and
offline scoring code. Machine integers (`u64`) are embedded as `Nat` with
explicit bounds, `f64` values are embedded as exact rationals `ℚ`, byte
arrays as `List ℕ`, and randomness as explicit oracle inputs (the drawn
values are parameters). Fallible code returns `Option`.
-/

namespace VdbBenchmarks

/-! ### Fake identifier encoding (`src/distribution/ids.rs`)

`index_to_fake_uuid` repeats the 8 big-endian bytes of the `u64` id twice to
fill 16 bytes and then applies `uuid::Builder::from_random_bytes`, which
overwrites the high nibble of byte 6 with the version `0100` and the two high
bits of byte 8 with the RFC-4122 variant `10`. `fake_uuid_to_index` takes
bytes 8..16, zeroes the first of them (the flagged byte) and reads them
big-endian. -/

/-- Byte `k` (0 = most significant) of the big-endian encoding of a `u64`. -/
def beByte (id k : ℕ) : ℕ :=
  id / 2 ^ (8 * (7 - k)) % 256

/-- `index_to_fake_uuid`: the 16 bytes of the generated identifier.
Bytes 0..8 and 8..16 are both the big-endian bytes of `id`; byte 6 then gets
the version nibble (`(b & 0x0f) | 0x40`) and byte 8 the variant bits
(`(b & 0x3f) | 0x80`), exactly as `uuid::Builder::from_random_bytes` does. -/
def index_to_fake_uuid (id : ℕ) : List ℕ :=
  [beByte id 0, beByte id 1, beByte id 2, beByte id 3,
   beByte id 4, beByte id 5, beByte id 6 % 16 + 64, beByte id 7,
   beByte id 0 % 64 + 128, beByte id 1, beByte id 2, beByte id 3,
   beByte id 4, beByte id 5, beByte id 6, beByte id 7]

/-- `u64::from_be_bytes`. -/
def beBytesToU64 (bs : List ℕ) : ℕ :=
  bs.foldl (fun acc b => acc * 256 + b) 0

/-- `fake_uuid_to_index`: take bytes 8..16 of the identifier, zero the first
one ("remove uuid type/version flags") and read the 8 bytes big-endian. -/
def fake_uuid_to_index (u : List ℕ) : ℕ :=
  beBytesToU64 (0 :: u.drop 9)

theorem fake_uuid_to_index_index_to_fake_uuid (i : ℕ) :
    fake_uuid_to_index (index_to_fake_uuid i) = i % 2 ^ 56 := by
  simp only [fake_uuid_to_index, index_to_fake_uuid, beBytesToU64, beByte,
    List.drop, List.foldl]
  omega

theorem index_to_fake_uuid_inj (i j : ℕ) (hi : i < 2 ^ 64) (hj : j < 2 ^ 64)
    (h : index_to_fake_uuid i = index_to_fake_uuid j) : i = j := by
  simp only [index_to_fake_uuid, beByte, List.cons.injEq, and_true] at h
  omega

/-- C2 (counterexample): the claim asserts `decode(encode(i)) = i` for every
id below `2^120`, but already at `i = 2^56` (a valid `u64` id) the decoded
value is `0`, because the most significant byte of the id is stored only in
the masked positions and is zeroed on decode. -/
theorem fake_uuid_roundtrip_fails_at_two_pow_56 :
    fake_uuid_to_index (index_to_fake_uuid (2 ^ 56)) ≠ 2 ^ 56 := by
  decide

/-- C2 (amended): the fake-identifier encoding is deterministic, reversible
and collision-free for every id below `2^56` (not `2^120`):
`fake_uuid_to_index (index_to_fake_uuid i) = i` for all `i < 2^56`, distinct
`u64` ids always map to distinct 128-bit identifiers, and the round trip
holds at `0`, `1`, `2^54 - 1` and `2^54`. -/
theorem fake_uuid_roundtrip_below_two_pow_56 :
    (∀ i, i < 2 ^ 56 → fake_uuid_to_index (index_to_fake_uuid i) = i) ∧
    (∀ i j, i < 2 ^ 64 → j < 2 ^ 64 →
        index_to_fake_uuid i = index_to_fake_uuid j → i = j) ∧
    fake_uuid_to_index (index_to_fake_uuid 0) = 0 ∧
    fake_uuid_to_index (index_to_fake_uuid 1) = 1 ∧
    fake_uuid_to_index (index_to_fake_uuid (2 ^ 54 - 1)) = 2 ^ 54 - 1 ∧
    fake_uuid_to_index (index_to_fake_uuid (2 ^ 54)) = 2 ^ 54 := by
  refine ⟨fun i hi => ?_, index_to_fake_uuid_inj, by decide, by decide,
    by decide, by decide⟩
  rw [fake_uuid_to_index_index_to_fake_uuid, Nat.mod_eq_of_lt hi]

/-- Witness for `fake_uuid_roundtrip_below_two_pow_56` at the concrete
id `3`. -/
theorem fake_uuid_roundtrip_below_two_pow_56_witness :
    fake_uuid_to_index (index_to_fake_uuid 3) = 3 :=
  fake_uuid_roundtrip_below_two_pow_56.1 3 (by decide)

/-! ### Unique label sampling (`src/distribution/label.rs`)

`Population::sample_n_unique` first asserts `n <= population / 2` and
`n <= 512`, then repeatedly draws one weighted label and skips it if it was
already collected, until `n` distinct labels are gathered. The weighted
draws are embedded as an oracle `stream : ℕ → ℕ` (the `pos`-th value is the
`pos`-th draw of `self.sample(rng)`); the unbounded `while` loop is embedded
with explicit fuel, `outOfFuel` marking the still-running state. -/

/-- Outcome of `sample_n_unique`: a returned label list, a failed `assert!`
(a panic in the source), or a loop that has not finished within the fuel. -/
inductive SampleResult where
  | ok : List ℕ → SampleResult
  | assertFail : SampleResult
  | outOfFuel : SampleResult
deriving DecidableEq

/-- The rejection loop of `sample_n_unique`: while fewer than `n` labels are
collected, draw `stream pos` and append it unless already present. -/
def sample_loop (stream : ℕ → ℕ) (n : ℕ) : ℕ → ℕ → List ℕ → SampleResult
  | 0, _, acc => if acc.length < n then .outOfFuel else .ok acc
  | fuel + 1, pos, acc =>
    if acc.length < n then
      let l := stream pos
      if l ∈ acc then sample_loop stream n fuel (pos + 1) acc
      else sample_loop stream n fuel (pos + 1) (acc ++ [l])
    else .ok acc

/-- `Population::sample_n_unique` with the two sanity `assert!`s. -/
def sample_n_unique (population n : ℕ) (stream : ℕ → ℕ) (fuel : ℕ) :
    SampleResult :=
  if population / 2 < n then .assertFail
  else if 512 < n then .assertFail
  else sample_loop stream n fuel 0 []

theorem sample_loop_ok (stream : ℕ → ℕ) (n : ℕ) :
    ∀ (fuel pos : ℕ) (acc ls : List ℕ), acc.Nodup → acc.length ≤ n →
      sample_loop stream n fuel pos acc = .ok ls →
      ls.Nodup ∧ ls.length = n := by
  intro fuel
  induction fuel with
  | zero =>
    intro pos acc ls hnd hle h
    simp only [sample_loop] at h
    split at h
    · exact absurd h (by simp)
    · cases h
      exact ⟨hnd, by omega⟩
  | succ f ih =>
    intro pos acc ls hnd hle h
    simp only [sample_loop] at h
    split at h
    · split at h
      · exact ih _ _ _ hnd hle h
      · refine ih _ _ _ ?_ ?_ h
        · simpa [List.nodup_append] using ⟨hnd, by assumption⟩
        · simp only [List.length_append, List.length_cons, List.length_nil]
          omega
    · cases h
      exact ⟨hnd, by omega⟩

theorem sample_loop_inj_terminates (stream : ℕ → ℕ)
    (hinj : Function.Injective stream) (n : ℕ) :
    ∀ (fuel pos : ℕ) (acc : List ℕ),
      (∀ x ∈ acc, ∃ k, k < pos ∧ stream k = x) → n ≤ acc.length + fuel →
      ∃ ls, sample_loop stream n fuel pos acc = .ok ls := by
  intro fuel
  induction fuel with
  | zero =>
    intro pos acc _ hfuel
    refine ⟨acc, ?_⟩
    simp only [sample_loop]
    have : ¬ acc.length < n := by omega
    simp [this]
  | succ f ih =>
    intro pos acc hmem hfuel
    simp only [sample_loop]
    split
    · have hnotmem : stream pos ∉ acc := by
        intro hmem'
        obtain ⟨k, hk, hkeq⟩ := hmem _ hmem'
        exact absurd (hinj hkeq) (by omega)
      simp only [hnotmem, if_false]
      refine ih (pos + 1) (acc ++ [stream pos]) ?_ ?_
      · intro x hx
        rcases List.mem_append.1 hx with hx | hx
        · obtain ⟨k, hk, hkeq⟩ := hmem _ hx
          exact ⟨k, by omega, hkeq⟩
        · simp only [List.mem_singleton] at hx
          exact ⟨pos, by omega, hx.symm⟩
      · simp only [List.length_append, List.length_cons, List.length_nil]
        omega
    · exact ⟨acc, rfl⟩

/-- C3: whenever `sample_n_unique` returns a label list it has exactly `n`
pairwise-distinct entries; requesting `n` greater than half the population
fails the assertion instead of looping (for every draw stream and fuel); and
for `n ≤ population / 2`, `n ≤ 512` the loop does terminate, witnessed here
for every oracle stream that never repeats a draw. -/
theorem sample_n_unique_spec :
    (∀ (population n : ℕ) (stream : ℕ → ℕ) (fuel : ℕ) (ls : List ℕ),
        sample_n_unique population n stream fuel = .ok ls →
        ls.Nodup ∧ ls.length = n) ∧
    (∀ (population n : ℕ) (stream : ℕ → ℕ) (fuel : ℕ),
        population / 2 < n →
        sample_n_unique population n stream fuel = .assertFail) ∧
    (∀ (population n : ℕ) (stream : ℕ → ℕ),
        n ≤ population / 2 → n ≤ 512 → Function.Injective stream →
        ∃ ls, sample_n_unique population n stream n = .ok ls ∧
          ls.Nodup ∧ ls.length = n) := by
  refine ⟨?_, ?_, ?_⟩
  · intro population n stream fuel ls h
    simp only [sample_n_unique] at h
    split at h
    · exact absurd h (by simp)
    split at h
    · exact absurd h (by simp)
    exact sample_loop_ok stream n fuel 0 [] ls List.nodup_nil (by simp) h
  · intro population n stream fuel h
    simp [sample_n_unique, h]
  · intro population n stream h1 h2 hinj
    have hne1 : ¬ population / 2 < n := by omega
    have hne2 : ¬ 512 < n := by omega
    obtain ⟨ls, hls⟩ :=
      sample_loop_inj_terminates stream hinj n n 0 [] (by simp) (by simp)
    refine ⟨ls, ?_, ?_⟩
    · simp [sample_n_unique, hne1, hne2, hls]
    · exact sample_loop_ok stream n n 0 [] ls List.nodup_nil (by simp) hls

/-- Witness for `sample_n_unique_spec`: population 10, `n = 3`, the identity
draw stream; the loop terminates with 3 distinct labels. -/
theorem sample_n_unique_spec_witness :
    ∃ ls, sample_n_unique 10 3 (fun k => k) 3 = .ok ls ∧
      ls.Nodup ∧ ls.length = 3 :=
  sample_n_unique_spec.2.2 10 3 (fun k => k) (by decide) (by decide)
    (fun a b h => h)

/-! ### Label filter sampling (`src/distribution/label.rs`,
`impl Distribution<Filter> for Population`)

`nr_include` and `nr_exclude` are drawn from the configured count
distributions (embedded as oracle inputs), `nr_include + nr_exclude` unique
labels are sampled in one batch, and `Vec::split_off(nr_include)` leaves the
first `nr_include` labels as `include` and moves the rest to `exclude`. -/

/-- The label `Filter` sampler. `split_off nr_include` is `take`/`drop`. -/
def sample_label_filter (population nr_include nr_exclude : ℕ)
    (stream : ℕ → ℕ) (fuel : ℕ) : Option (List ℕ × List ℕ) :=
  match sample_n_unique population (nr_include + nr_exclude) stream fuel with
  | .ok labels => some (labels.take nr_include, labels.drop nr_include)
  | _ => none

/-- C7: a sampled label filter has exactly `nr_include` include labels and
`nr_exclude` exclude labels, and no label occurs in both lists. -/
theorem sample_label_filter_spec (population nr_include nr_exclude : ℕ)
    (stream : ℕ → ℕ) (fuel : ℕ) (inc exc : List ℕ)
    (h : sample_label_filter population nr_include nr_exclude stream fuel =
      some (inc, exc)) :
    inc.length = nr_include ∧ exc.length = nr_exclude ∧
      ∀ l ∈ inc, l ∉ exc := by
  unfold sample_label_filter at h
  split at h
  case _ labels heq =>
    obtain ⟨hnd, hlen⟩ := sample_n_unique_spec.1 _ _ _ _ _ heq
    cases h
    have hdisj : List.Disjoint (labels.take nr_include)
        (labels.drop nr_include) := by
      have := hnd
      rw [← List.take_append_drop nr_include labels] at this
      exact List.disjoint_of_nodup_append this
    refine ⟨?_, ?_, fun l hl hl2 => hdisj hl hl2⟩
    · simp [List.length_take, hlen]
    · simp [List.length_drop, hlen]
  case _ => exact absurd h (by simp)

/-- Witness for `sample_label_filter_spec`: population 10, 2 include and 1
exclude labels from the identity stream give `([0, 1], [2])`. -/
theorem sample_label_filter_spec_witness :
    [0, 1].length = 2 ∧ [2].length = 1 ∧ ∀ l ∈ [0, 1], l ∉ [2] :=
  sample_label_filter_spec 10 2 1 (fun k => k) 3 [0, 1] [2] (by decide)

/-! ### Date filter sampling (`src/distribution/date.rs`,
`impl Distribution<Filter> for Population`)

Two Bernoulli draws decide whether a lower/upper bound exists, each bound is
then drawn from its own range sampler, and if both exist with
`lower_bound > upper_bound` the two are swapped (`mem::swap`). The Bernoulli
outcomes and the raw bound draws are oracle inputs; `DateTime<Utc>` values
compare exactly as their epoch-second timestamps, embedded as `ℕ`. -/

/-- The date `Filter` sampler: `(lower_bound, upper_bound)`. -/
def sample_date_filter (has_lower has_upper : Bool)
    (lower_raw upper_raw : ℕ) : Option ℕ × Option ℕ :=
  let lower := if has_lower then some lower_raw else none
  let upper := if has_upper then some upper_raw else none
  match lower, upper with
  | some l, some u => if u < l then (some u, some l) else (some l, some u)
  | l, u => (l, u)

/-- C8: whenever the sampled date filter carries both bounds, the returned
filter satisfies `lower_bound ≤ upper_bound`: raw samples with
`lower > upper` are swapped before the filter is returned. -/
theorem sample_date_filter_ordered (has_lower has_upper : Bool)
    (lower_raw upper_raw l u : ℕ)
    (h : sample_date_filter has_lower has_upper lower_raw upper_raw =
      (some l, some u)) : l ≤ u := by
  cases has_lower <;> cases has_upper <;>
    simp only [sample_date_filter, if_true, if_false] at h
  · exact absurd h (by simp)
  · exact absurd h (by simp)
  · exact absurd h (by simp)
  · split at h <;> (cases h; omega)

/-- Witness for `sample_date_filter_ordered`: raw draws `lower = 5`,
`upper = 3` get swapped, so the returned bounds `(3, 5)` are ordered. -/
theorem sample_date_filter_ordered_witness :
    sample_date_filter true true 5 3 = (some 3, some 5) ∧ 3 ≤ 5 :=
  ⟨by decide, sample_date_filter_ordered true true 5 3 3 5 (by decide)⟩

/-! ### Decimal number strings

The repository parses numbers out of strings with Rust's `f64::from_str`
(`"4.311"`, `"7.46"`, `"10"`, `"-1"`, ...). We embed that parser on its
finite-decimal fragment with exact rational semantics:
`[+|-] (digits [. digits*] | . digits) [(e|E) [+|-] digits]`. The special
values `inf`/`NaN` accepted by `f64::from_str` are mapped to `none`; every
place the repository consumes the parsed number (a `(0..=100).contains`
range check, a byte-size scale) rejects or never receives non-finite values,
so this does not change any accept/reject behaviour modelled below. -/

/-- Numeric value of an ASCII digit. -/
def digitVal (c : Char) : ℕ := c.toNat - 48

/-- Value of a digit run, most significant first. -/
def digitsToNat (cs : List Char) : ℕ :=
  cs.foldl (fun a c => a * 10 + digitVal c) 0

/-- Optional leading sign (as an integer factor) and remaining characters. -/
def parseSign (cs : List Char) : ℤ × List Char :=
  if cs.head? = some '+' then (1, cs.tail)
  else if cs.head? = some '-' then (-1, cs.tail)
  else (1, cs)

/-- Exponent part after `e`/`E`: optional sign, then at least one digit,
then nothing. -/
def parseExp (cs : List Char) : Option ℤ :=
  let s := parseSign cs
  let ds := s.2.takeWhile Char.isDigit
  let rest := s.2.dropWhile Char.isDigit
  if ds.isEmpty ∨ ¬ rest.isEmpty then none
  else some (s.1 * (digitsToNat ds : ℤ))

/-- The finite-decimal fragment of `f64::from_str`, with exact `ℚ` value. -/
def parseDecimal (cs : List Char) : Option ℚ :=
  let s := parseSign cs
  let ip := s.2.takeWhile Char.isDigit
  let cs2 := s.2.dropWhile Char.isDigit
  let hasPoint := cs2.head? = some '.'
  let fp := if hasPoint then cs2.tail.takeWhile Char.isDigit else []
  let cs3 := if hasPoint then cs2.tail.dropWhile Char.isDigit else cs2
  if ip.isEmpty ∧ fp.isEmpty then none
  else
    let mant : ℚ := (s.1 : ℚ) * ((digitsToNat ip : ℚ) +
      (digitsToNat fp : ℚ) / 10 ^ fp.length)
    if cs3.isEmpty then some mant
    else if cs3.head? = some 'e' ∨ cs3.head? = some 'E' then
      (parseExp cs3.tail).map (fun e => mant * (10 : ℚ) ^ e)
    else none

/-! ### Percentage value parsing (`src/distribution/range.rs`,
`impl Deserialize for Percentage`)

The deserializer requires the string to end with `'%'`, parses the prefix
with `f64::from_str`, requires the value to lie in `0..=100`, and stores
`value / 100`. -/

/-- `Percentage` deserialization from a string. -/
def percentage_from_str (s : String) : Option ℚ :=
  let cs := s.data
  if cs.getLast? = some '%' then
    match parseDecimal cs.dropLast with
    | some p => if 0 ≤ p ∧ p ≤ 100 then some (p / 100) else none
    | none => none
  else none

def pct_ten : String := "10%"
def pct_hundred_one : String := "101%"
def pct_minus_one : String := "-1%"
def pct_abc : String := "abc"

/-- C9: percentage parsing accepts `"10%"` as `0.10`, rejects `"101%"`,
`"-1%"` and `"abc"`, and every accepted string ends in `'%'` and yields a
value `number / 100` with the number in `[0, 100]` (so the result lies in
`[0, 1]`). -/
theorem percentage_parsing_spec :
    percentage_from_str pct_ten = some (1 / 10) ∧
    percentage_from_str pct_hundred_one = none ∧
    percentage_from_str pct_minus_one = none ∧
    percentage_from_str pct_abc = none ∧
    (∀ (s : String) (q : ℚ), percentage_from_str s = some q →
      s.data.getLast? = some '%' ∧
      ∃ p, parseDecimal s.data.dropLast = some p ∧ 0 ≤ p ∧ p ≤ 100 ∧
        q = p / 100) := by
  refine ⟨?_, ?_, ?_, ?_, ?_⟩
  · simp [percentage_from_str, parseDecimal, parseSign, parseExp,
      digitsToNat, digitVal, pct_ten]
    norm_num
  · simp [percentage_from_str, parseDecimal, parseSign, parseExp,
      digitsToNat, digitVal, pct_hundred_one]
    norm_num
  · simp [percentage_from_str, parseDecimal, parseSign, parseExp,
      digitsToNat, digitVal, pct_minus_one]
  · simp [percentage_from_str, parseDecimal, parseSign, parseExp,
      digitsToNat, digitVal, pct_abc]
  intro s q h
  simp only [percentage_from_str] at h
  split at h
  case _ hlast =>
    refine ⟨hlast, ?_⟩
    split at h
    case _ p hp =>
      split at h
      case _ hrange => cases h; exact ⟨p, hp, hrange.1, hrange.2, rfl⟩
      case _ => exact absurd h (by simp)
    case _ => exact absurd h (by simp)
  case _ => exact absurd h (by simp)

/-- Witness for `percentage_parsing_spec`: the accepted `"10%"` indeed ends
in `'%'` and decodes as `10 / 100`. -/
theorem percentage_parsing_spec_witness :
    pct_ten.data.getLast? = some '%' ∧
    ∃ p, parseDecimal pct_ten.data.dropLast = some p ∧ 0 ≤ p ∧ p ≤ 100 ∧
      (1 / 10 : ℚ) = p / 100 :=
  percentage_parsing_spec.2.2.2.2 pct_ten (1 / 10)
    percentage_parsing_spec.1

/-! ### Normal range distributions (`src/distribution/range.rs`)

`RangeDistributionBuilder::build` rejects `range_min >= range_max`, and for
the normal kind computes `range_len = range_max - range_min`,
`mean = range_len * pct`, and passes `std2 = (range_len * std_pct).powi(2)`
as the second argument of `rand_distr::Normal::new` (whose second parameter
is the standard deviation). `RangeDistribution::sample` rounds the drawn
value and reflects it back into range with two `while` loops, then returns
`range_min + point as u64`. The `f64` state is embedded as `ℚ`, the drawn
value as an oracle input `x`, and the loops with explicit fuel. -/

/-- The state of `InnerRangeDistribution::Normal`. `std_dev` is the value
passed as the standard-deviation parameter of `Normal::new`. -/
structure NormalDist where
  mean : ℚ
  std_dev : ℚ
  range_len : ℚ
  range_min : ℕ
deriving DecidableEq

/-- `RangeDistributionBuilder::build` for the `Normal` kind. `mean_pct` and
`std_pct` are the inner values of the two `Percentage`s (already divided
by 100 at deserialization). -/
def build_normal (mean_pct std_pct : ℚ) (range_min range_max : ℕ) :
    Option NormalDist :=
  if range_max ≤ range_min then none
  else
    let range_len : ℚ := (range_max : ℚ) - (range_min : ℚ)
    some { mean := range_len * mean_pct,
           std_dev := (range_len * std_pct) ^ 2,
           range_len := range_len, range_min := range_min }

/-- The underflow loop `while point < 0 { point += mean }`, with fuel. -/
def reflect_low (mean : ℚ) : ℕ → ℚ → Option ℚ
  | 0, point => if point < 0 then none else some point
  | fuel + 1, point =>
    if point < 0 then reflect_low mean fuel (point + mean) else some point

/-- The overflow loop
`while point > range_len { point = mean + (point - range_len) }`, fueled. -/
def reflect_high (mean range_len : ℚ) : ℕ → ℚ → Option ℚ
  | 0, point => if range_len < point then none else some point
  | fuel + 1, point =>
    if range_len < point then
      reflect_high mean range_len fuel (mean + (point - range_len))
    else some point

/-- `f64::round`: round half away from zero. -/
def roundHalfAway (x : ℚ) : ℤ :=
  if x < 0 then -⌊-x + 1 / 2⌋ else ⌊x + 1 / 2⌋

/-- `RangeDistribution::sample` for the normal kind on a drawn value `x`:
round, run both reflection loops, and return `range_min + point as u64`
(the `f64`-to-`u64` cast truncates toward zero and saturates at 0, which is
`Int.toNat ∘ Int.floor` for in-range values). -/
def normal_range_sample (d : NormalDist) (x : ℚ) (fuel : ℕ) : Option ℕ :=
  match reflect_low d.mean fuel ((roundHalfAway x : ℤ) : ℚ) with
  | none => none
  | some p1 =>
    match reflect_high d.mean d.range_len fuel p1 with
    | none => none
    | some p2 => some (d.range_min + p2.floor.toNat)

theorem reflect_low_mono (mean : ℚ) :
    ∀ (f1 f2 : ℕ) (p q : ℚ), f1 ≤ f2 →
      reflect_low mean f1 p = some q → reflect_low mean f2 p = some q := by
  intro f1
  induction f1 with
  | zero =>
    intro f2 p q _ h
    simp only [reflect_low] at h
    split at h
    · exact absurd h (by simp)
    case _ hp => cases h; cases f2 <;> simp [reflect_low, hp]
  | succ f ih =>
    intro f2 p q hle h
    simp only [reflect_low] at h
    split at h
    case _ hp =>
      obtain ⟨g, rfl⟩ : ∃ g, f2 = g + 1 := ⟨f2 - 1, by omega⟩
      simp only [reflect_low, hp, if_true]
      exact ih g _ q (by omega) h
    case _ hp => cases h; cases f2 <;> simp [reflect_low, hp]

theorem reflect_high_mono (mean range_len : ℚ) :
    ∀ (f1 f2 : ℕ) (p q : ℚ), f1 ≤ f2 →
      reflect_high mean range_len f1 p = some q →
      reflect_high mean range_len f2 p = some q := by
  intro f1
  induction f1 with
  | zero =>
    intro f2 p q _ h
    simp only [reflect_high] at h
    split at h
    · exact absurd h (by simp)
    case _ hp => cases h; cases f2 <;> simp [reflect_high, hp]
  | succ f ih =>
    intro f2 p q hle h
    simp only [reflect_high] at h
    split at h
    case _ hp =>
      obtain ⟨g, rfl⟩ : ∃ g, f2 = g + 1 := ⟨f2 - 1, by omega⟩
      simp only [reflect_high, hp, if_true]
      exact ih g _ q (by omega) h
    case _ hp => cases h; cases f2 <;> simp [reflect_high, hp]

theorem reflect_low_term (mean : ℚ) (_hm : 0 < mean) :
    ∀ (k : ℕ) (p : ℚ), 0 ≤ p + k * mean →
      ∃ q, reflect_low mean k p = some q ∧ 0 ≤ q := by
  intro k
  induction k with
  | zero =>
    intro p h
    simp only [Nat.cast_zero, zero_mul, add_zero] at h
    exact ⟨p, by simp [reflect_low, not_lt.2 h], h⟩
  | succ k ih =>
    intro p h
    by_cases hp : p < 0
    · obtain ⟨q, hq, hq0⟩ := ih (p + mean) (by push_cast at h ⊢; linarith)
      exact ⟨q, by simp [reflect_low, hp, hq], hq0⟩
    · exact ⟨p, by simp [reflect_low, hp], not_lt.1 hp⟩

theorem reflect_high_term (mean range_len : ℚ) (_hm : 0 < mean) :
    ∀ (k : ℕ) (p : ℚ), 0 ≤ p → p ≤ range_len + k * (range_len - mean) →
      ∃ q, reflect_high mean range_len k p = some q ∧ 0 ≤ q ∧
        q ≤ range_len := by
  intro k
  induction k with
  | zero =>
    intro p h0 h
    simp only [Nat.cast_zero, zero_mul, add_zero] at h
    exact ⟨p, by simp [reflect_high, not_lt.2 h], h0, h⟩
  | succ k ih =>
    intro p h0 h
    by_cases hp : range_len < p
    · obtain ⟨q, hq, hq0, hqr⟩ := ih (mean + (p - range_len))
        (by linarith) (by push_cast at h ⊢; linarith)
      exact ⟨q, by simp [reflect_high, hp, hq], hq0, hqr⟩
    · exact ⟨p, by simp [reflect_high, hp], h0, not_lt.1 hp⟩

theorem exists_mean_shift (mean : ℚ) (hm : 0 < mean) (p : ℚ) :
    ∃ k : ℕ, 0 ≤ p + k * mean := by
  obtain ⟨n, hn⟩ := exists_nat_ge (-p / mean)
  refine ⟨n, ?_⟩
  have := (div_le_iff₀ hm).1 hn
  linarith

theorem exists_step_shift (δ : ℚ) (hδ : 0 < δ) (p b : ℚ) :
    ∃ k : ℕ, p ≤ b + k * δ := by
  obtain ⟨n, hn⟩ := exists_nat_ge ((p - b) / δ)
  refine ⟨n, ?_⟩
  have := (div_le_iff₀ hδ).1 hn
  linarith

/-- C5 (amended): for a built normal range sampler whose mean percentage is
strictly between 0 and 1 (exclusive) — so `0 < mean < range_len` — both
reflection loops terminate for every drawn value, and the returned sample
lies within `[range_min, range_max]`. (At the admitted extremes `0%` and
`100%` the loops can run forever, see the counterexample.) -/
theorem normal_range_sample_in_range (mean_pct std_pct : ℚ)
    (range_min range_max : ℕ) (d : NormalDist)
    (hb : build_normal mean_pct std_pct range_min range_max = some d)
    (h0 : 0 < mean_pct) (h1 : mean_pct < 1) (x : ℚ) :
    ∃ fuel v, normal_range_sample d x fuel = some v ∧
      range_min ≤ v ∧ v ≤ range_max := by
  simp only [build_normal] at hb
  split at hb
  · exact absurd hb (by simp)
  case _ hlt =>
    have hminmax : range_min < range_max := by omega
    rw [Option.some.injEq] at hb
    subst hb
    set rl : ℚ := (range_max : ℚ) - (range_min : ℚ) with hrl_def
    have hrl : 0 < rl := by
      rw [hrl_def]
      have : (range_min : ℚ) < (range_max : ℚ) := by exact_mod_cast hminmax
      linarith
    have hmean : 0 < rl * mean_pct := mul_pos hrl h0
    have hmlt : rl * mean_pct < rl := by
      calc rl * mean_pct < rl * 1 := by
            exact mul_lt_mul_of_pos_left h1 hrl
        _ = rl := mul_one rl
    obtain ⟨k1, hk1⟩ := exists_mean_shift (rl * mean_pct) hmean
      ((roundHalfAway x : ℤ) : ℚ)
    obtain ⟨q1, hq1, hq1_0⟩ := reflect_low_term (rl * mean_pct) hmean k1
      ((roundHalfAway x : ℤ) : ℚ) hk1
    obtain ⟨k2, hk2⟩ := exists_step_shift (rl - rl * mean_pct)
      (by linarith) q1 rl
    obtain ⟨q2, hq2, hq2_0, hq2_r⟩ := reflect_high_term (rl * mean_pct) rl
      hmean k2 q1 hq1_0 hk2
    refine ⟨max k1 k2, range_min + q2.floor.toNat, ?_, ?_, ?_⟩
    · have hL := reflect_low_mono (rl * mean_pct) k1 (max k1 k2) _ _
        (le_max_left _ _) hq1
      have hH := reflect_high_mono (rl * mean_pct) rl k2 (max k1 k2) _ _
        (le_max_right _ _) hq2
      simp [normal_range_sample, hL, hH]
    · exact Nat.le_add_right _ _
    · have hfl : q2.floor ≤ (range_max : ℤ) - (range_min : ℤ) := by
        have h2 : q2 ≤ (((range_max : ℤ) - (range_min : ℤ) : ℤ) : ℚ) := by
          push_cast
          rw [hrl_def] at hq2_r
          linarith
        have := Int.floor_le_floor h2
        rwa [Int.floor_intCast] at this
      omega

/-- Witness for `normal_range_sample_in_range`: the sampler built for mean
`50%` and std `10%` over `[0, 100]` returns an in-range value on the drawn
value `-1`. -/
theorem normal_range_sample_in_range_witness :
    ∃ fuel v, normal_range_sample
      { mean := 50, std_dev := 100, range_len := 100, range_min := 0 }
      (-1) fuel = some v ∧ 0 ≤ v ∧ v ≤ 100 :=
  normal_range_sample_in_range (1 / 2) (1 / 10) 0 100
    { mean := 50, std_dev := 100, range_len := 100, range_min := 0 }
    (by norm_num [build_normal]) (by norm_num) (by norm_num) (-1)

/-- The sampler state built from mean percentage `0%` over `[0, 100]`. -/
def normal_dist_zero_mean : NormalDist :=
  { mean := 0, std_dev := 100, range_len := 100, range_min := 0 }

/-- The sampling loops never finish: no amount of fuel produces a value. -/
def sample_diverges (d : NormalDist) (x : ℚ) : Prop :=
  ∀ fuel, normal_range_sample d x fuel = none

theorem reflect_low_zero_mean :
    ∀ (fuel : ℕ) (p : ℚ), p < 0 → reflect_low 0 fuel p = none := by
  intro fuel
  induction fuel with
  | zero => intro p hp; simp [reflect_low, hp]
  | succ f ih =>
    intro p hp
    simp only [reflect_low, hp, if_true, add_zero]
    exact ih p hp

/-- C5 (counterexample): the claim quantifies over every successfully built
normal sampler, but the builder accepts mean percentage `0%` (`"0%"` parses
to `0`), and then a drawn value that rounds negative makes
`while point < 0 { point += mean }` loop forever: no fuel suffices. -/
theorem normal_range_sample_diverges_at_zero_mean :
    build_normal 0 (1 / 10) 0 100 = some normal_dist_zero_mean ∧
    sample_diverges normal_dist_zero_mean (-1) := by
  constructor
  · norm_num [build_normal, normal_dist_zero_mean]
  · intro fuel
    have hr : ((roundHalfAway (-1 : ℚ) : ℤ) : ℚ) = -1 := by
      norm_num [roundHalfAway]
    have h1 : reflect_low normal_dist_zero_mean.mean fuel
        ((roundHalfAway (-1 : ℚ) : ℤ) : ℚ) = none := by
      rw [hr]
      exact reflect_low_zero_mean fuel (-1) (by norm_num)
    simp [normal_range_sample, h1]

/-- C6: the builder's mean parameter is `range_len * mean_pct` as specified,
but the second argument handed to `Normal::new` — whose parameter is the
standard deviation — is `(range_len * std_pct)^2`, the variance, not
`range_len * std_pct`. Concretely for mean `10%`, std `10%` over
`[0, 100]`: the built std-dev parameter is `100`, while the claimed value
`(1/10) * 100` is `10`. -/
theorem build_normal_passes_squared_std :
    build_normal (1 / 10) (1 / 10) 0 100 =
      some { mean := 10, std_dev := 100, range_len := 100, range_min := 0 } ∧
    ((1 / 10 : ℚ) * 100 ≠ 100) := by
  constructor
  · norm_num [build_normal]
  · norm_num

/-! ### Docker stats line parsing (`src/docker.rs`)

`LineParser::parse` strips ANSI escape sequences (the regex
`ESC [ [0-9;]* [a-zA-Z]`), decodes the line as JSON into the five string
fields `Name/MemUsage/CPUPerc/BlockIO/NetIO` (the JSON step is serde, an
external collaborator; we embed the parser from the decoded record on), and
discards lines whose container name does not start with the configured
prefix. `parse_mem_current_max` takes the part before the first `/`, trims
it, strips the `B` suffix, reads an optional `i` (binary units, base 2 with
power multiplier 10; otherwise base 10 with multiplier 3) and an optional
`K/k`, `M` or `G` (power level 1, 2, 3), rejects a bare `iB`, parses the
number, and scales by `base ^ (power_level * pow_multiplier) / divide_by`.
`parse_percentage` trims, strips `%` and parses the bare number. -/

/-- One step of `Regex::replace_all` for `ESC [ [0-9;]* [a-zA-Z]` with the
empty replacement: scan left to right; on `ESC [` followed by a digit/`;`
run and an ASCII letter, drop the whole sequence, otherwise keep the
character and continue. Fuel is the remaining input length (every step
consumes at least one character). -/
def ansiStripAux : ℕ → List Char → List Char
  | 0, cs => cs
  | _ + 1, [] => []
  | fuel + 1, c :: rest =>
    if c = '\x1b' ∧ rest.head? = some '[' then
      match rest.tail.dropWhile (fun ch => ch.isDigit ∨ ch = ';') with
      | a :: rest2 =>
        if a.isAlpha then ansiStripAux fuel rest2
        else c :: ansiStripAux fuel rest
      | [] => c :: ansiStripAux fuel rest
    else c :: ansiStripAux fuel rest

/-- Strip all ANSI escape sequences from a line. -/
def ansiStrip (cs : List Char) : List Char :=
  ansiStripAux cs.length cs

/-- `ansiStrip` on `String`s. -/
def ansiStripStr (s : String) : String :=
  ⟨ansiStrip s.data⟩

/-- `str::trim` (on the whitespace the stats lines contain). -/
def trimChars (cs : List Char) : List Char :=
  ((cs.dropWhile Char.isWhitespace).reverse.dropWhile Char.isWhitespace).reverse

/-- `str::strip_suffix` for a single character. -/
def strip_suffix_char (cs : List Char) (c : Char) : Option (List Char) :=
  if cs.getLast? = some c then some cs.dropLast else none

/-- `GiB = 0x40000000 as f64`. -/
def GiB : ℚ := 1073741824

/-- `GB = 1_000_000_000.`. -/
def GB : ℚ := 1000000000

/-- `parse_mem_current_max`: parse `"current / limit"`, keep `current`,
normalize by `divide_by`. -/
def parse_mem_current_max (input : String) (divide_by : ℚ) : Option ℚ :=
  let s0 := trimChars (input.data.takeWhile (fun c => c ≠ '/'))
  match strip_suffix_char s0 'B' with
  | none => none
  | some s1 =>
    let bi := strip_suffix_char s1 'i'
    let s2 := bi.getD s1
    let base : ℕ := if bi.isSome then 2 else 10
    let pow_multiplier : ℕ := if bi.isSome then 10 else 3
    let k1 := strip_suffix_char s2 'K'
    let k2 := strip_suffix_char s2 'k'
    let m := strip_suffix_char s2 'M'
    let g := strip_suffix_char s2 'G'
    let s3 := k1.getD (k2.getD (m.getD (g.getD s2)))
    let power_level : ℕ :=
      if k1.isSome ∨ k2.isSome then 1
      else if m.isSome then 2
      else if g.isSome then 3
      else 0
    if power_level = 0 ∧ base = 2 then none
    else
      match parseDecimal s3 with
      | some number =>
        some (number * ((base : ℚ) ^ (power_level * pow_multiplier)) /
          divide_by)
      | none => none

/-- `parse_percentage` of `src/docker.rs`: trim, strip `%`, parse the bare
number (no division by 100). -/
def parse_percentage (value : String) : Option ℚ :=
  match strip_suffix_char (trimChars value.data) '%' with
  | some number => parseDecimal number
  | none => none

/-- The five string fields of one docker-stats JSON line. -/
structure StatPointJson where
  name : String
  memory : String
  cpu : String
  block_io : String
  net_io : String

/-- One parsed snapshot. -/
structure StatPoint where
  memory : ℚ
  cpu : ℚ
  block_io : ℚ
  net_io : ℚ
deriving DecidableEq

/-- `LineParser::parse` after JSON decoding: `some none` is a discarded
line (prefix mismatch), `none` a fatal parse error. -/
def line_parse (pre : String) (j : StatPointJson) : Option (Option StatPoint) :=
  if pre.data.isPrefixOf j.name.data then
    match parse_mem_current_max j.memory GiB, parse_percentage j.cpu,
      parse_mem_current_max j.block_io GB,
      parse_mem_current_max j.net_io GB with
    | some m, some c, some b, some n =>
      some (some { memory := m, cpu := c, block_io := b, net_io := n })
    | _, _, _, _ => none
  else some none

/-- The docker-stats test line, ANSI escapes included. -/
def ex_line : String :=
  "\x1b[2J\x1b[H\x7b\"BlockIO\":\"24.6kB / 17.4GB\",\"CPUPerc\":\"7.46%\",\"Container\":\"67dec669eced\",\"ID\":\"67dec669eced\",\"MemPerc\":\"53.88%\",\"MemUsage\":\"4.311GiB / 8GiB\",\"Name\":\"qdrant_node-3_1\",\"NetIO\":\"2.88GB / 8.64MB\",\"PIDs\":\"38\"\x7d"

/-- The same line with the ANSI escapes removed. -/
def ex_line_stripped : String :=
  "\x7b\"BlockIO\":\"24.6kB / 17.4GB\",\"CPUPerc\":\"7.46%\",\"Container\":\"67dec669eced\",\"ID\":\"67dec669eced\",\"MemPerc\":\"53.88%\",\"MemUsage\":\"4.311GiB / 8GiB\",\"Name\":\"qdrant_node-3_1\",\"NetIO\":\"2.88GB / 8.64MB\",\"PIDs\":\"38\"\x7d"

/-- The JSON-decoded fields of `ex_line`. -/
def ex_json : StatPointJson :=
  { name := "qdrant_node-3_1", memory := "4.311GiB / 8GiB", cpu := "7.46%",
    block_io := "24.6kB / 17.4GB", net_io := "2.88GB / 8.64MB" }

/-- The same fields under a container name of another backend. -/
def ex_json_other : StatPointJson :=
  { name := "vespa_node-1_1", memory := "4.311GiB / 8GiB", cpu := "7.46%",
    block_io := "24.6kB / 17.4GB", net_io := "2.88GB / 8.64MB" }

/-- The configured trial prefix of the example. -/
def qdrant_pre : String := "qdrant"

theorem ex_memory_value :
    parse_mem_current_max ex_json.memory GiB = some (4311 / 1000) := by
  simp [parse_mem_current_max, strip_suffix_char, trimChars, parseDecimal,
    parseSign, parseExp, digitsToNat, digitVal, ex_json, GiB]
  norm_num

theorem ex_cpu_value : parse_percentage ex_json.cpu = some (746 / 100) := by
  simp [parse_percentage, strip_suffix_char, trimChars, parseDecimal,
    parseSign, parseExp, digitsToNat, digitVal, ex_json]
  norm_num

theorem ex_block_io_value :
    parse_mem_current_max ex_json.block_io GB = some (246 / 10000000) := by
  simp [parse_mem_current_max, strip_suffix_char, trimChars, parseDecimal,
    parseSign, parseExp, digitsToNat, digitVal, ex_json, GB]
  norm_num

theorem ex_net_io_value :
    parse_mem_current_max ex_json.net_io GB = some (288 / 100) := by
  simp [parse_mem_current_max, strip_suffix_char, trimChars, parseDecimal,
    parseSign, parseExp, digitsToNat, digitVal, ex_json, GB]
  norm_num

set_option maxRecDepth 4000 in
/-- C4: stripping the ANSI escapes of the literal docker-stats line leaves
the bare JSON text; for prefix `"qdrant"` and container name
`"qdrant_node-3_1"` the four fields parse to `4.311` (GiB-normalized
memory), `7.46` (bare cpu percentage), `2.46e-5` (GB-normalized block io)
and `2.88` (GB-normalized net io); binary units scale by powers of 1024,
decimal units by powers of 1000, bare `B` by 1; and any record whose name
does not start with the prefix yields no sample. -/
theorem docker_line_parsing :
    ansiStripStr ex_line = ex_line_stripped ∧
    line_parse qdrant_pre ex_json =
      some (some
        { memory := 4311 / 1000, cpu := 746 / 100,
          block_io := 246 / 10000000, net_io := 288 / 100 }) ∧
    parse_mem_current_max (String.mk ['1', 'K', 'i', 'B']) 1 = some 1024 ∧
    parse_mem_current_max (String.mk ['1', 'M', 'i', 'B']) 1 =
      some 1048576 ∧
    parse_mem_current_max (String.mk ['1', 'G', 'i', 'B']) 1 =
      some 1073741824 ∧
    parse_mem_current_max (String.mk ['1', 'K', 'B']) 1 = some 1000 ∧
    parse_mem_current_max (String.mk ['1', 'M', 'B']) 1 = some 1000000 ∧
    parse_mem_current_max (String.mk ['1', 'G', 'B']) 1 = some 1000000000 ∧
    parse_mem_current_max (String.mk ['4', '2', 'B']) 1 = some 42 ∧
    (∀ (pre : String) (j : StatPointJson),
      pre.data.isPrefixOf j.name.data = false →
      line_parse pre j = some none) := by
  refine ⟨by decide, ?_, ?_, ?_, ?_, ?_, ?_, ?_, ?_, ?_⟩
  · have hpre : qdrant_pre.data.isPrefixOf ex_json.name.data = true := by
      decide
    simp [line_parse, hpre, ex_memory_value, ex_cpu_value, ex_block_io_value,
      ex_net_io_value]
  · simp [parse_mem_current_max, strip_suffix_char, trimChars, parseDecimal,
      parseSign, parseExp, digitsToNat, digitVal]
    norm_num
  · simp [parse_mem_current_max, strip_suffix_char, trimChars, parseDecimal,
      parseSign, parseExp, digitsToNat, digitVal]
    norm_num
  · simp [parse_mem_current_max, strip_suffix_char, trimChars, parseDecimal,
      parseSign, parseExp, digitsToNat, digitVal]
    norm_num
  · simp [parse_mem_current_max, strip_suffix_char, trimChars, parseDecimal,
      parseSign, parseExp, digitsToNat, digitVal]
    norm_num
  · simp [parse_mem_current_max, strip_suffix_char, trimChars, parseDecimal,
      parseSign, parseExp, digitsToNat, digitVal]
    norm_num
  · simp [parse_mem_current_max, strip_suffix_char, trimChars, parseDecimal,
      parseSign, parseExp, digitsToNat, digitVal]
    norm_num
  · simp [parse_mem_current_max, strip_suffix_char, trimChars, parseDecimal,
      parseSign, parseExp, digitsToNat, digitVal]
  · intro pre j h
    simp [line_parse, h]

/-- Witness for `docker_line_parsing`: the record named `"vespa_node-1_1"`
is discarded for prefix `"qdrant"`. -/
theorem docker_line_parsing_witness :
    line_parse qdrant_pre ex_json_other = some none :=
  docker_line_parsing.2.2.2.2.2.2.2.2.2 qdrant_pre ex_json_other (by decide)

/-! ### Streaming statistics and resource extrema (`src/math.rs`,
`src/docker.rs`)

`WelfordOnlineAlgorithm` keeps `count/mean/m2`; `Stat` additionally folds
`max` and `min` with `f64::max`/`f64::min`, starting from the
`Default`-initialized zeros. -/

/-- `WelfordOnlineAlgorithm` state. -/
structure WelfordOnlineAlgorithm where
  count : ℕ
  mean : ℚ
  m2 : ℚ

/-- `WelfordOnlineAlgorithm::new` (`Default`: all zeros). -/
def WelfordOnlineAlgorithm.init : WelfordOnlineAlgorithm :=
  { count := 0, mean := 0, m2 := 0 }

/-- `WelfordOnlineAlgorithm::update`. -/
def WelfordOnlineAlgorithm.update (w : WelfordOnlineAlgorithm)
    (new_value : ℚ) : WelfordOnlineAlgorithm :=
  let count := w.count + 1
  let diff1 := new_value - w.mean
  let mean := w.mean + diff1 / (count : ℚ)
  let diff2 := new_value - mean
  { count := count, mean := mean, m2 := w.m2 + diff1 * diff2 }

/-- A `docker.rs` `Stat`. -/
structure Stat where
  max : ℚ
  min : ℚ
  dist : WelfordOnlineAlgorithm

/-- `Default`-initialized `Stat`: extrema start at `0.0`. -/
def Stat.init : Stat :=
  { max := 0, min := 0, dist := WelfordOnlineAlgorithm.init }

/-- `Stat::update`. -/
def Stat.update (s : Stat) (value : ℚ) : Stat :=
  { max := Max.max s.max value, min := Min.min s.min value,
    dist := s.dist.update value }

theorem stat_fold_max_le (xs : List ℚ) :
    ∀ s : Stat, s.max ≤ (xs.foldl Stat.update s).max := by
  induction xs with
  | nil => intro s; exact le_refl _
  | cons a t ih =>
    intro s
    calc s.max ≤ (s.update a).max := le_max_left _ _
      _ ≤ _ := ih (s.update a)

theorem stat_fold_min_le (xs : List ℚ) :
    ∀ s : Stat, (xs.foldl Stat.update s).min ≤ s.min := by
  induction xs with
  | nil => intro s; exact le_refl _
  | cons a t ih =>
    intro s
    calc (List.foldl Stat.update (s.update a) t).min ≤ (s.update a).min :=
        ih (s.update a)
      _ ≤ s.min := min_le_left _ _

theorem stat_fold_mem_max (xs : List ℚ) :
    ∀ (s : Stat) (x : ℚ), x ∈ xs → x ≤ (xs.foldl Stat.update s).max := by
  induction xs with
  | nil => intro s x hx; exact absurd hx (by simp)
  | cons a t ih =>
    intro s x hx
    rcases List.mem_cons.1 hx with rfl | hx
    · calc x ≤ (s.update x).max := le_max_right _ _
        _ ≤ _ := stat_fold_max_le t (s.update x)
    · exact ih (s.update a) x hx

theorem stat_fold_mem_min (xs : List ℚ) :
    ∀ (s : Stat) (x : ℚ), x ∈ xs → (xs.foldl Stat.update s).min ≤ x := by
  induction xs with
  | nil => intro s x hx; exact absurd hx (by simp)
  | cons a t ih =>
    intro s x hx
    rcases List.mem_cons.1 hx with rfl | hx
    · calc (List.foldl Stat.update (s.update x) t).min ≤ (s.update x).min :=
          stat_fold_min_le t (s.update x)
        _ ≤ x := min_le_right _ _
    · exact ih (s.update a) x hx

theorem stat_fold_max_attained (xs : List ℚ) :
    ∀ s : Stat, (xs.foldl Stat.update s).max = s.max ∨
      (xs.foldl Stat.update s).max ∈ xs := by
  induction xs with
  | nil => intro s; exact Or.inl rfl
  | cons a t ih =>
    intro s
    rcases ih (s.update a) with h | h
    · rcases max_choice s.max a with hc | hc
      · exact Or.inl (by rw [List.foldl_cons, h]; exact hc)
      · refine Or.inr (List.mem_cons.2 (Or.inl ?_))
        rw [List.foldl_cons, h]; exact hc
    · exact Or.inr (List.mem_cons.2 (Or.inr h))

theorem stat_fold_min_attained (xs : List ℚ) :
    ∀ s : Stat, (xs.foldl Stat.update s).min = s.min ∨
      (xs.foldl Stat.update s).min ∈ xs := by
  induction xs with
  | nil => intro s; exact Or.inl rfl
  | cons a t ih =>
    intro s
    rcases ih (s.update a) with h | h
    · rcases min_choice s.min a with hc | hc
      · exact Or.inl (by rw [List.foldl_cons, h]; exact hc)
      · refine Or.inr (List.mem_cons.2 (Or.inl ?_))
        rw [List.foldl_cons, h]; exact hc
    · exact Or.inr (List.mem_cons.2 (Or.inr h))

/-- C10: folding any sample sequence into a `Default`-initialized `Stat`
keeps the zero of the initialization in the extrema: the resulting `max` is
an upper bound of `0` and all samples and is either `0` or a sample (so it
equals `max (0, x1, ..., xn)` and is never negative), and dually the
resulting `min` equals `min (0, x1, ..., xn)` and is never positive. -/
theorem docker_stat_extrema (xs : List ℚ) :
    0 ≤ (xs.foldl Stat.update Stat.init).max ∧
    (xs.foldl Stat.update Stat.init).min ≤ 0 ∧
    (∀ x ∈ xs, x ≤ (xs.foldl Stat.update Stat.init).max ∧
      (xs.foldl Stat.update Stat.init).min ≤ x) ∧
    ((xs.foldl Stat.update Stat.init).max = 0 ∨
      (xs.foldl Stat.update Stat.init).max ∈ xs) ∧
    ((xs.foldl Stat.update Stat.init).min = 0 ∨
      (xs.foldl Stat.update Stat.init).min ∈ xs) := by
  refine ⟨stat_fold_max_le xs Stat.init, stat_fold_min_le xs Stat.init,
    fun x hx => ⟨stat_fold_mem_max xs Stat.init x hx,
      stat_fold_mem_min xs Stat.init x hx⟩,
    stat_fold_max_attained xs Stat.init, stat_fold_min_attained xs Stat.init⟩

/-- Witness for `docker_stat_extrema` on the all-negative sample sequence
`[-3, -1]`: the reported max is still at least `0`. -/
theorem docker_stat_extrema_witness :
    0 ≤ (([-3, -1] : List ℚ).foldl Stat.update Stat.init).max ∧
    (([-3, -1] : List ℚ).foldl Stat.update Stat.init).min ≤ -3 :=
  ⟨(docker_stat_extrema [-3, -1]).1,
    ((docker_stat_extrema [-3, -1]).2.2.1 (-3) (by simp)).2⟩

/-! ### Offline recall/precision scoring (`src/bin/stats.rs`,
`calculate_stats`)

For each buffered `(idx, got_neighbors)` pair the scorer takes
`expected_neighbors = &neighbors[idx][..10]` (a panic if the row is
shorter), counts `true_positive` over only the FIRST TEN returned hits
(`got_neighbors.iter().take(10)`), and folds
`precision = if tp == 0 { 0 } else { tp / got_neighbors.len() }` and
`recall = tp / expected_hits` into two Welford accumulators. The per-pair
scores are embedded below; the indexing panic becomes `none`. -/

/-- The `true_positive` count of `calculate_stats`: hits among the first 10
returned neighbors that occur in the expected list. -/
def true_positive (expected got : List ℕ) : ℕ :=
  ((got.take 10).filter (fun g => expected.contains g)).length

/-- The spec's formula: `|hits ∩ expected|`, as the cardinality of the
intersection of the two sets. -/
def spec_true_positive (expected got : List ℕ) : ℕ :=
  (got.toFinset ∩ expected.toFinset).card

/-- One loop iteration of `calculate_stats`: the `(precision, recall)` pair
for a buffered `(idx, got)` entry. `none` models the two indexing panics
(`neighbors[idx]` and `[..10]`). -/
def score_pair (neighbors : List (List ℕ)) (expected_hits : ℕ) (idx : ℕ)
    (got : List ℕ) : Option (ℚ × ℚ) :=
  match neighbors[idx]? with
  | none => none
  | some row =>
    if row.length < 10 then none
    else
      let tp := true_positive (row.take 10) got
      let prec : ℚ := if tp = 0 then 0 else (tp : ℚ) / (got.length : ℚ)
      some (prec, (tp : ℚ) / (expected_hits : ℚ))

theorem true_positive_eq_inter_card (expected got : List ℕ)
    (hnd : got.Nodup) (hle : got.length ≤ 10) :
    true_positive expected got = spec_true_positive expected got := by
  unfold true_positive spec_true_positive
  rw [List.take_of_length_le hle]
  have h1 : got.filter (fun g => expected.contains g) = got ∩ expected := rfl
  rw [h1]
  calc (got ∩ expected).length
      = (got ∩ expected).toFinset.card :=
        (List.toFinset_card_of_nodup (List.Nodup.inter _ hnd)).symm
    _ = (got.toFinset ∩ expected.toFinset).card := by
        rw [List.toFinset_inter]

/-- C1 (amended): the scorer hardcodes 10: `true_positive` counts only the
first 10 returned hits against the first 10 true neighbors (not
`|hits ∩ expected|` over full lists), which coincides with
`|hits ∩ expected|` whenever the hit list has at most 10 distinct entries;
`precision = tp / len(hits)` with `0` whenever `tp = 0` (in particular for
empty hits) and `recall = tp / expected_hits`. With `expected_hits = 10`,
truth `{1..10}` and hits `{1..8, 97, 98}` this gives
`precision = recall = 0.8`, and hits disjoint from the truth give
`precision = 0`. -/
theorem recall_precision_scoring :
    (∀ (expected got : List ℕ), got.Nodup → got.length ≤ 10 →
      true_positive expected got = spec_true_positive expected got) ∧
    score_pair [[1, 2, 3, 4, 5, 6, 7, 8, 9, 10]] 10 0
      [1, 2, 3, 4, 5, 6, 7, 8, 97, 98] = some (8 / 10, 8 / 10) ∧
    score_pair [[1, 2, 3, 4, 5, 6, 7, 8, 9, 10]] 10 0
      [11, 12, 13, 14, 15, 16, 17, 18, 19, 20] = some (0, 0) ∧
    score_pair [[1, 2, 3, 4, 5, 6, 7, 8, 9, 10]] 10 0 [] = some (0, 0) ∧
    (∀ (neighbors : List (List ℕ)) (expected_hits idx : ℕ)
        (got : List ℕ) (p r : ℚ),
      score_pair neighbors expected_hits idx got = some (p, r) →
      ∃ row, neighbors[idx]? = some row ∧ 10 ≤ row.length ∧
        r = (true_positive (row.take 10) got : ℚ) / (expected_hits : ℚ) ∧
        (true_positive (row.take 10) got = 0 → p = 0) ∧
        (true_positive (row.take 10) got ≠ 0 →
          p = (true_positive (row.take 10) got : ℚ) / (got.length : ℚ))) := by
  refine ⟨true_positive_eq_inter_card, ?_, ?_, ?_, ?_⟩
  · simp [score_pair, true_positive]
  · simp [score_pair, true_positive]
  · simp [score_pair, true_positive]
  · intro neighbors expected_hits idx got p r h
    unfold score_pair at h
    split at h
    · exact absurd h (by simp)
    case _ row heq =>
      split at h
      · exact absurd h (by simp)
      case _ hlen =>
        rw [Option.some.injEq, Prod.mk.injEq] at h
        refine ⟨row, heq, by omega, h.2.symm, ?_, ?_⟩
        · intro h0
          rw [← h.1]
          simp [h0]
        · intro h0
          rw [← h.1]
          simp [h0]

/-- Witness for `recall_precision_scoring`: the code's `true_positive` on a
concrete short, duplicate-free hit list equals the spec's set
intersection. -/
theorem recall_precision_scoring_witness :
    true_positive [1, 2] [2, 3] = spec_true_positive [1, 2] [2, 3] :=
  recall_precision_scoring.1 [1, 2] [2, 3] (by simp) (by simp)

/-- C1 (counterexample): with truth `{1..10}` and 11 returned hits whose
only correct entry sits at position 11, `calculate_stats` counts
`true_positive = 0` (it only looks at the first 10 hits) and records
`recall = 0` and `precision = 0`, while the claimed formula
`|hits ∩ expected|` gives `1`, i.e. `recall = 1/10 ≠ 0`. -/
theorem recall_scoring_take10_counterexample :
    score_pair [[1, 2, 3, 4, 5, 6, 7, 8, 9, 10]] 10 0
      [11, 12, 13, 14, 15, 16, 17, 18, 19, 20, 1] = some (0, 0) ∧
    spec_true_positive [1, 2, 3, 4, 5, 6, 7, 8, 9, 10]
      [11, 12, 13, 14, 15, 16, 17, 18, 19, 20, 1] = 1 ∧
    ((1 : ℚ) / 10 ≠ 0) := by
  refine ⟨?_, ?_, by norm_num⟩
  · simp [score_pair, true_positive]
  · simp [spec_true_positive]

end VdbBenchmarks
